import Mathlib

/-!
Shallow embedding of the HotShot testing harness
(`src/testing/src/lib.rs`) and the libp2p swarm bootstrap
(`src/libp2p-networking/src/network_node_handle.rs`).

Generic type parameters of the Rust code are instantiated with `Nat`
stand-ins: transactions, leaves, state commitments, block deltas and
`HotShotError` payloads are all opaque to the harness logic being
verified, so each is modelled as a `Nat`.  Asynchronous execution is
modelled by passing the outcome of each awaited external call (round
outcomes, network events, decided leaves) as explicit inputs.  A Rust
panic is modelled as `none` / a dedicated `panicked` constructor.
-/

set_option maxHeartbeats 1000000

/-- Errors from `execute_round` and friends (`ConsensusFailedError` in
`src/testing/src/lib.rs`).  Only the variants exercised by the harness
logic are carried; the remaining fieldless variants are collapsed into
`SafetyFailed` since the harness never inspects them. -/
inductive ConsensusFailedError where
  /-- a safety condition failed, with a description -/
  | SafetyFailed (description : String)
  /-- `shutdown` was asked for an id that is not in the node list -/
  | NoSuchNode (node_ids : List Nat) (requested_id : Nat)
deriving DecidableEq

/-- The overarching consensus test failure (`ConsensusTestError`). -/
inductive ConsensusTestError where
  /-- too many rounds failed -/
  | TooManyFailures
deriving DecidableEq

/-- Number of failed rounds in a list of round outcomes. -/
def countFails : List (Except ConsensusFailedError Unit) → Nat
  | [] => 0
  | Except.ok _ :: rest => countFails rest
  | Except.error _ :: rest => countFails rest + 1

/-- The loop body of `TestRunner::execute_rounds`: walk the round
outcomes in order carrying `num_fails`; a failed round increments
`num_fails` and, when `num_fails > fail_threshold`, the loop returns
`TooManyFailures` at once.  The first component counts how many rounds
were attempted before returning. -/
def executeRoundsGo (fail_threshold : Nat) :
    List (Except ConsensusFailedError Unit) → Nat →
    Nat × Except ConsensusTestError Unit
  | [], _ => (0, Except.ok ())
  | res :: rest, num_fails =>
    match res with
    | Except.ok _ =>
      let next := executeRoundsGo fail_threshold rest num_fails
      (next.1 + 1, next.2)
    | Except.error _ =>
      if fail_threshold < num_fails + 1 then
        (1, Except.error ConsensusTestError.TooManyFailures)
      else
        let next := executeRoundsGo fail_threshold rest (num_fails + 1)
        (next.1 + 1, next.2)

/-- `TestRunner::execute_rounds(num_success, fail_threshold)`: the Rust
loop `for i in 0..(num_success + fail_threshold)` runs `execute_round`
once per index; `rounds i` is the outcome the pipeline produces for
round `i`.  Returns the number of rounds attempted together with the
result. -/
def execute_rounds (rounds : Nat → Except ConsensusFailedError Unit)
    (num_success fail_threshold : Nat) :
    Nat × Except ConsensusTestError Unit :=
  executeRoundsGo fail_threshold
    ((List.range (num_success + fail_threshold)).map rounds) 0

theorem countFails_cons_ok (rest : List (Except ConsensusFailedError Unit)) :
    countFails (Except.ok () :: rest) = countFails rest := rfl

theorem countFails_pos {l : List (Except ConsensusFailedError Unit)}
    {x : Except ConsensusFailedError Unit} (hx : x ∈ l)
    (hne : x ≠ Except.ok ()) : 0 < countFails l := by
  induction l with
  | nil => cases hx
  | cons y rest ih =>
    rcases List.mem_cons.mp hx with h | h
    · subst h
      cases x with
      | ok u => cases u; exact absurd rfl hne
      | error e => simp [countFails]
    · cases y with
      | ok u => cases u; simpa [countFails] using ih h
      | error e =>
        have := Nat.zero_le (countFails rest)
        simp [countFails]

/-- Core specification of the `execute_rounds` loop, generalized over a
starting failure count `nf ≤ ft`.  The loop returns `Ok` iff the total
failures stay within the threshold; on `Ok` it consumed the whole list;
on error, failures hit `ft + 1` exactly at the point of return and at
no earlier point had they exceeded the threshold. -/
theorem executeRoundsGo_spec (ft : Nat) :
    ∀ (l : List (Except ConsensusFailedError Unit)) (nf : Nat), nf ≤ ft →
    ((executeRoundsGo ft l nf).2 = Except.ok () ↔ nf + countFails l ≤ ft) ∧
    ((executeRoundsGo ft l nf).2 = Except.ok () →
      (executeRoundsGo ft l nf).1 = l.length) ∧
    ((executeRoundsGo ft l nf).2 = Except.error ConsensusTestError.TooManyFailures →
      nf + countFails (l.take (executeRoundsGo ft l nf).1) = ft + 1 ∧
      (∀ m < (executeRoundsGo ft l nf).1, nf + countFails (l.take m) ≤ ft) ∧
      (executeRoundsGo ft l nf).1 ≤ l.length) := by
  intro l
  induction l with
  | nil =>
    intro nf hnf
    refine ⟨?_, ?_, ?_⟩
    · simp [executeRoundsGo, countFails, hnf]
    · intro _; simp [executeRoundsGo]
    · intro h; simp [executeRoundsGo] at h
  | cons x rest ih =>
    intro nf hnf
    cases x with
    | ok u =>
      cases u
      have h := ih nf hnf
      refine ⟨?_, ?_, ?_⟩
      · simpa [executeRoundsGo, countFails] using h.1
      · intro hok
        have := h.2.1 (by simpa [executeRoundsGo] using hok)
        simp [executeRoundsGo, this]
      · intro herr
        have herr' : (executeRoundsGo ft rest nf).2 =
            Except.error ConsensusTestError.TooManyFailures := by
          simpa [executeRoundsGo] using herr
        obtain ⟨h1, h2, h3⟩ := h.2.2 herr'
        refine ⟨?_, ?_, ?_⟩
        · simpa [executeRoundsGo, countFails] using h1
        · intro m hm
          cases m with
          | zero => simpa [countFails] using hnf
          | succ k =>
            have hk : k < (executeRoundsGo ft rest nf).1 := by
              have : k + 1 < (executeRoundsGo ft rest nf).1 + 1 := by
                simpa [executeRoundsGo] using hm
              omega
            simpa [countFails] using h2 k hk
        · simpa [executeRoundsGo] using Nat.succ_le_succ h3
    | error e =>
      by_cases hthr : ft < nf + 1
      · have hnfft : nf = ft := Nat.le_antisymm hnf (Nat.lt_succ_iff.mp hthr)
        refine ⟨?_, ?_, ?_⟩
        · constructor
          · intro h; simp [executeRoundsGo, hthr] at h
          · intro h
            exfalso
            have : ft + 1 ≤ nf + countFails (Except.error e :: rest) := by
              have : 1 ≤ countFails (Except.error e :: rest) := by
                simp [countFails]
              omega
            omega
        · intro h; simp [executeRoundsGo, hthr] at h
        · intro _
          refine ⟨?_, ?_, ?_⟩
          · simp [executeRoundsGo, hthr, countFails]; omega
          · intro m hm
            have hm1 : m = 0 := by
              simp [executeRoundsGo, hthr] at hm
              omega
            subst hm1
            simpa [countFails] using hnf
          · simp [executeRoundsGo, hthr]
      · have hle : nf + 1 ≤ ft := Nat.not_lt.mp hthr
        have h := ih (nf + 1) hle
        refine ⟨?_, ?_, ?_⟩
        · have : (executeRoundsGo ft (Except.error e :: rest) nf).2 =
              (executeRoundsGo ft rest (nf + 1)).2 := by
            simp [executeRoundsGo, hthr]
          rw [this, h.1]
          simp [countFails]
          omega
        · intro hok
          have hok' : (executeRoundsGo ft rest (nf + 1)).2 = Except.ok () := by
            simpa [executeRoundsGo, hthr] using hok
          have := h.2.1 hok'
          simp [executeRoundsGo, hthr, this]
        · intro herr
          have herr' : (executeRoundsGo ft rest (nf + 1)).2 =
              Except.error ConsensusTestError.TooManyFailures := by
            simpa [executeRoundsGo, hthr] using herr
          obtain ⟨h1, h2, h3⟩ := h.2.2 herr'
          refine ⟨?_, ?_, ?_⟩
          · simp [executeRoundsGo, hthr, countFails]
            omega
          · intro m hm
            cases m with
            | zero => simpa [countFails] using hnf
            | succ k =>
              have hk : k < (executeRoundsGo ft rest (nf + 1)).1 := by
                have : k + 1 < (executeRoundsGo ft rest (nf + 1)).1 + 1 := by
                  simpa [executeRoundsGo, hthr] using hm
                omega
              have := h2 k hk
              simp [countFails]
              omega
          · simpa [executeRoundsGo, hthr] using Nat.succ_le_succ h3

/-- Outcome of one round of consensus (`RoundResult` in
`src/testing/src/lib.rs`).  The maps `success_nodes` / `failed_nodes`
are `HashMap<u64, _>`s, modelled as association lists with unique keys
(see `hmInsert`).  The `success` field is written as `nll_todo()` in
the source — a placeholder that panics when evaluated — and is modelled
as `none : Option Bool`, i.e. no boolean is ever produced for it. -/
structure RoundResult where
  /-- transactions submitted this round -/
  txns : List Nat
  /-- node id to `(state commitments, blocks)` for nodes that decided -/
  success_nodes : List (Nat × Nat)
  /-- node id to `HotShotError` for nodes that failed to decide -/
  failed_nodes : List (Nat × Nat)
  /-- whether the round succeeded; `nll_todo()` in the source -/
  success : Option Bool
deriving DecidableEq

/-- `HashMap::insert`: overwrite the value when the key is present,
otherwise append the new binding. -/
def hmInsert (m : List (Nat × Nat)) (k : Nat) (v : Nat) : List (Nat × Nat) :=
  if m.any (fun p => p.1 == k) then
    m.map (fun p => if p.1 == k then (k, v) else p)
  else m ++ [(k, v)]

/-- `TestRunner::run_one_round`: starts every node, then collects each
node's round events in node-insertion order.  `nodes` carries, per
node, its `node_id` and the outcome of
`handle.collect_round_events()` — `Ok((state, block))` (modelled as one
`Nat`) or `Err(e)` (a `HotShotError`, modelled as a `Nat`).  Successes
are inserted into `results`, failures into `failures`, keyed by
`node_id`. -/
def run_one_round (nodes : List (Nat × Except Nat Nat)) (txns : List Nat) :
    RoundResult :=
  let step := nodes.foldl
    (fun (acc : List (Nat × Nat) × List (Nat × Nat)) node =>
      match node.2 with
      | Except.ok sb => (hmInsert acc.1 node.1 sb, acc.2)
      | Except.error e => (acc.1, hmInsert acc.2 node.1 e))
    ([], [])
  { txns := txns
    success_nodes := step.1
    failed_nodes := step.2
    success := none }

/-- `TestRunner::execute_round`: run the pre safety check, then the
round setup (producing `txns`), then `run_one_round`, then the post
safety check on the produced `RoundResult`.  The second component
exposes the `RoundResult` built by `run_one_round` (when one was
built) so that properties of it can be stated. -/
def execute_round (pre : Except ConsensusFailedError Unit)
    (setupTxns : List Nat) (nodes : List (Nat × Except Nat Nat))
    (post : RoundResult → Except ConsensusFailedError Unit) :
    Except ConsensusFailedError Unit × Option RoundResult :=
  match pre with
  | Except.error e => (Except.error e, none)
  | Except.ok _ =>
    let results := run_one_round nodes setupTxns
    match post results with
    | Except.error e => (Except.error e, some results)
    | Except.ok _ => (Except.ok (), some results)

/-- C1: `execute_rounds(num_success, fail_threshold)` drives a budget of
`num_success + fail_threshold` rounds.  It returns `Ok` exactly when the
failures within the budget never exceed `fail_threshold`, in which case
the full budget was attempted; it returns `TooManyFailures` as soon as
the failure count reaches `fail_threshold + 1`, having exceeded the
threshold at no earlier point; and for `fail_threshold = 0` any single
round failure yields `TooManyFailures`. -/
theorem execute_rounds_budget_and_threshold
    (rounds : Nat → Except ConsensusFailedError Unit) (ns ft : Nat) :
    ((execute_rounds rounds ns ft).2 = Except.ok () ↔
      countFails ((List.range (ns + ft)).map rounds) ≤ ft) ∧
    ((execute_rounds rounds ns ft).2 = Except.ok () →
      (execute_rounds rounds ns ft).1 = ns + ft) ∧
    ((execute_rounds rounds ns ft).2 =
        Except.error ConsensusTestError.TooManyFailures →
      countFails (((List.range (ns + ft)).map rounds).take
          (execute_rounds rounds ns ft).1) = ft + 1 ∧
      (∀ m < (execute_rounds rounds ns ft).1,
        countFails (((List.range (ns + ft)).map rounds).take m) ≤ ft) ∧
      (execute_rounds rounds ns ft).1 ≤ ns + ft) ∧
    (ft = 0 → (∃ i, i < ns ∧ rounds i ≠ Except.ok ()) →
      (execute_rounds rounds ns ft).2 =
        Except.error ConsensusTestError.TooManyFailures) := by
  have h := executeRoundsGo_spec ft ((List.range (ns + ft)).map rounds) 0
    (Nat.zero_le ft)
  refine ⟨?_, ?_, ?_, ?_⟩
  · simpa [execute_rounds] using h.1
  · intro hok
    have := h.2.1 (by simpa [execute_rounds] using hok)
    simpa [execute_rounds, List.length_map, List.length_range] using this
  · intro herr
    obtain ⟨h1, h2, h3⟩ := h.2.2 (by simpa [execute_rounds] using herr)
    refine ⟨by simpa [execute_rounds] using h1,
      by simpa [execute_rounds] using h2,
      by simpa [execute_rounds, List.length_map, List.length_range] using h3⟩
  · intro hft hex
    obtain ⟨i, hi, hne⟩ := hex
    subst hft
    have hmem : rounds i ∈ (List.range (ns + 0)).map rounds :=
      List.mem_map_of_mem rounds (List.mem_range.mpr (by omega))
    have hpos := countFails_pos hmem hne
    cases hres : (execute_rounds rounds ns 0).2 with
    | ok u =>
      cases u
      have := h.1.mp (by simpa [execute_rounds] using hres)
      omega
    | error e => cases e; rfl

/-- Witness for C1 at `fail_threshold = 0` with a single always-failing
round: the result is `TooManyFailures`. -/
theorem execute_rounds_budget_and_threshold_w :
    (execute_rounds
        (fun _ => Except.error (ConsensusFailedError.SafetyFailed "boom"))
        1 0).2 = Except.error ConsensusTestError.TooManyFailures :=
  (execute_rounds_budget_and_threshold _ 1 0).2.2.2 rfl
    ⟨0, Nat.zero_lt_one, by simp⟩

/-- `execute_round` as the program actually executes it: when the pre
safety check fails, its error is returned; when it succeeds, the call
enters `run_one_round`, whose `RoundResult` literal evaluates
`success: nll_todo()` -- a placeholder that panics -- before the node
outcomes or the post safety check can influence the result.  `none`
models that panic; the setup transactions, node outcomes and post-check
are kept in the signature to mirror the source but never reach the
result. -/
def execute_round_run (pre : Except ConsensusFailedError Unit)
    (_setupTxns : List Nat) (_nodes : List (Nat × Except Nat Nat))
    (_post : RoundResult → Except ConsensusFailedError Unit) :
    Option (Except ConsensusFailedError Unit) :=
  match pre with
  | Except.error e => some (Except.error e)
  | Except.ok _ => none

/-- The `execute_rounds` loop over rounds that may panic: a panicking
round (`none`) aborts `execute_rounds` itself, since a Rust panic
propagates out of the loop; otherwise the failure counting is the same
as in `executeRoundsGo`. -/
def executeRoundsRunGo (fail_threshold : Nat) :
    List (Option (Except ConsensusFailedError Unit)) → Nat →
    Option (Nat × Except ConsensusTestError Unit)
  | [], _ => some (0, Except.ok ())
  | none :: _, _ => none
  | some res :: rest, num_fails =>
    match res with
    | Except.ok _ =>
      (executeRoundsRunGo fail_threshold rest num_fails).map
        (fun next => (next.1 + 1, next.2))
    | Except.error _ =>
      if fail_threshold < num_fails + 1 then
        some (1, Except.error ConsensusTestError.TooManyFailures)
      else
        (executeRoundsRunGo fail_threshold rest (num_fails + 1)).map
          (fun next => (next.1 + 1, next.2))

/-- `execute_rounds` over possibly-panicking round outcomes. -/
def execute_rounds_run
    (rounds : Nat → Option (Except ConsensusFailedError Unit))
    (num_success fail_threshold : Nat) :
    Option (Nat × Except ConsensusTestError Unit) :=
  executeRoundsRunGo fail_threshold
    ((List.range (num_success + fail_threshold)).map rounds) 0

/-- One round of the pipeline with the default pre-check, no setup
transactions, no nodes, and a post safety check that always fails: the
pre-check succeeds, so the round panics inside `run_one_round` at
`success: nll_todo()`, and the always-failing post-check is never
consulted. -/
def alwaysFailPostRoundRun (_i : Nat) :
    Option (Except ConsensusFailedError Unit) :=
  execute_round_run (Except.ok ()) [] []
    (fun _ => Except.error (ConsensusFailedError.SafetyFailed "post"))

/-- C2 counterexample: with a round pipeline whose post-check always
fails, `execute_rounds(0, 2)` and `execute_rounds(0, 1)` both panic
(`none`) in their first round, when `run_one_round` evaluates the
`success: nll_todo()` placeholder while building the `RoundResult` --
before the post-check runs.  In particular `execute_rounds(0, 2)` does
not return `Ok` and `execute_rounds(0, 1)` does not return
`TooManyFailures`, refuting the claim. -/
theorem execute_rounds_zero_budgets_panic :
    execute_rounds_run alwaysFailPostRoundRun 0 2 = none ∧
    execute_rounds_run alwaysFailPostRoundRun 0 1 = none :=
  ⟨rfl, rfl⟩

/-- C2 amended: with a round pipeline whose post-check always fails,
neither `execute_rounds(0, 2)` nor `execute_rounds(0, 1)` returns a
result: every budget `num_success + fail_threshold > 0` makes the
first round panic when `run_one_round` evaluates the
`success: nll_todo()` placeholder, before the always-failing post
safety check is consulted. -/
theorem execute_rounds_always_fail_post_panics (ns ft : Nat)
    (h : 0 < ns + ft) :
    execute_rounds_run alwaysFailPostRoundRun ns ft = none := by
  obtain ⟨k, hk⟩ : ∃ k, ns + ft = k + 1 := ⟨ns + ft - 1, by omega⟩
  unfold execute_rounds_run
  rw [hk, List.range_succ_eq_map, List.map_cons]
  rfl

/-- Witness for C2 amended at budget `1 + 1`. -/
theorem execute_rounds_always_fail_post_panics_w :
    execute_rounds_run alwaysFailPostRoundRun 1 1 = none :=
  execute_rounds_always_fail_post_panics 1 1 (by decide)

/-- The binding `run_one_round` appends to `success_nodes` for a node
whose `collect_round_events` succeeded, `none` otherwise. -/
def okPart (p : Nat × Except Nat Nat) : Option (Nat × Nat) :=
  match p.2 with
  | Except.ok v => some (p.1, v)
  | Except.error _ => none

/-- The binding `run_one_round` appends to `failed_nodes` for a node
whose `collect_round_events` failed, `none` otherwise. -/
def errPart (p : Nat × Except Nat Nat) : Option (Nat × Nat) :=
  match p.2 with
  | Except.ok _ => none
  | Except.error e => some (p.1, e)

theorem hmInsert_fresh {m : List (Nat × Nat)} {k : Nat}
    (h : k ∉ m.map Prod.fst) (v : Nat) :
    hmInsert m k v = m ++ [(k, v)] := by
  have hany : m.any (fun p => p.1 == k) = false := by
    rw [List.any_eq_false]
    intro p hp hk
    exact h (List.mem_map.mpr ⟨p, hp, by simpa using hk⟩)
  simp [hmInsert, hany]

theorem runOneRoundFold_eq :
    ∀ (nodes : List (Nat × Except Nat Nat)) (s f : List (Nat × Nat)),
    (nodes.map Prod.fst).Nodup →
    (∀ p ∈ nodes, p.1 ∉ s.map Prod.fst) →
    (∀ p ∈ nodes, p.1 ∉ f.map Prod.fst) →
    nodes.foldl
      (fun (acc : List (Nat × Nat) × List (Nat × Nat)) node =>
        match node.2 with
        | Except.ok sb => (hmInsert acc.1 node.1 sb, acc.2)
        | Except.error e => (acc.1, hmInsert acc.2 node.1 e))
      (s, f)
    = (s ++ nodes.filterMap okPart, f ++ nodes.filterMap errPart) := by
  intro nodes
  induction nodes with
  | nil => intro s f _ _ _; simp
  | cons p rest ih =>
    intro s f hnd hs hf
    rw [List.map_cons, List.nodup_cons] at hnd
    obtain ⟨hp1, hnd'⟩ := hnd
    have hps : p.1 ∉ s.map Prod.fst := hs p (List.mem_cons_self p rest)
    have hpf : p.1 ∉ f.map Prod.fst := hf p (List.mem_cons_self p rest)
    cases hp2 : p.2 with
    | ok v =>
      have h1 : ∀ q ∈ rest, q.1 ∉ (s ++ [(p.1, v)]).map Prod.fst := by
        intro q hq
        simp only [List.map_append, List.mem_append, List.map_cons,
          List.map_nil, List.mem_singleton, not_or]
        exact ⟨hs q (List.mem_cons_of_mem p hq),
          fun hqp => hp1 (List.mem_map.mpr ⟨q, hq, hqp⟩)⟩
      have h2 : ∀ q ∈ rest, q.1 ∉ f.map Prod.fst :=
        fun q hq => hf q (List.mem_cons_of_mem p hq)
      simp only [List.foldl_cons, hp2]
      rw [hmInsert_fresh hps]
      rw [ih (s ++ [(p.1, v)]) f hnd' h1 h2]
      simp [List.filterMap_cons, okPart, errPart, hp2, List.append_assoc]
    | error e =>
      have h1 : ∀ q ∈ rest, q.1 ∉ s.map Prod.fst :=
        fun q hq => hs q (List.mem_cons_of_mem p hq)
      have h2 : ∀ q ∈ rest, q.1 ∉ (f ++ [(p.1, e)]).map Prod.fst := by
        intro q hq
        simp only [List.map_append, List.mem_append, List.map_cons,
          List.map_nil, List.mem_singleton, not_or]
        exact ⟨hf q (List.mem_cons_of_mem p hq),
          fun hqp => hp1 (List.mem_map.mpr ⟨q, hq, hqp⟩)⟩
      simp only [List.foldl_cons, hp2]
      rw [hmInsert_fresh hpf]
      rw [ih s (f ++ [(p.1, e)]) hnd' h1 h2]
      simp [List.filterMap_cons, okPart, errPart, hp2, List.append_assoc]

theorem run_one_round_eq (nodes : List (Nat × Except Nat Nat))
    (txns : List Nat) (hnd : (nodes.map Prod.fst).Nodup) :
    run_one_round nodes txns =
      { txns := txns
        success_nodes := nodes.filterMap okPart
        failed_nodes := nodes.filterMap errPart
        success := none } := by
  unfold run_one_round
  rw [runOneRoundFold_eq nodes [] [] hnd (by simp) (by simp)]
  simp

theorem okPart_errPart_length :
    ∀ nodes : List (Nat × Except Nat Nat),
    (nodes.filterMap okPart).length + (nodes.filterMap errPart).length
      = nodes.length := by
  intro nodes
  induction nodes with
  | nil => simp
  | cons p rest ih =>
    cases hp2 : p.2 with
    | ok v =>
      simp [List.filterMap_cons, okPart, errPart, hp2]
      omega
    | error e =>
      simp [List.filterMap_cons, okPart, errPart, hp2]
      omega

/-- C5: the source populates `RoundResult.success` with `nll_todo()`, a
placeholder that panics when evaluated, so no boolean — in particular
not `failed_nodes.len() ≤ ⌊(n−1)/3⌋` — is ever computed for it.  In the
model the placeholder is `none : Option Bool`, and `run_one_round`
always yields it, for every set of per-node outcomes and transactions;
the field never equals the claimed predicate (nor any boolean). -/
theorem run_one_round_success_placeholder
    (nodes : List (Nat × Except Nat Nat)) (txns : List Nat) :
    (run_one_round nodes txns).success = none ∧
    (run_one_round nodes txns).success ≠
      some (decide ((run_one_round nodes txns).failed_nodes.length ≤
        (nodes.length - 1) / 3)) := by
  constructor
  · rfl
  · intro h
    exact Option.noConfusion h

/-- C6: whenever `execute_round` returns `Ok`, the `RoundResult` built
by `run_one_round` partitions the runner's nodes: assuming the runner
invariant that node ids are distinct, every node's id appears in
exactly one of `success_nodes` and `failed_nodes`, and their sizes sum
to the number of nodes. -/
theorem execute_round_partition (pre : Except ConsensusFailedError Unit)
    (setupTxns : List Nat) (nodes : List (Nat × Except Nat Nat))
    (post : RoundResult → Except ConsensusFailedError Unit)
    (hnd : (nodes.map Prod.fst).Nodup) (r : RoundResult)
    (hok : (execute_round pre setupTxns nodes post).1 = Except.ok ())
    (hr : (execute_round pre setupTxns nodes post).2 = some r) :
    r.success_nodes.length + r.failed_nodes.length = nodes.length ∧
    ∀ p ∈ nodes,
      (p.1 ∈ r.success_nodes.map Prod.fst ∧
        p.1 ∉ r.failed_nodes.map Prod.fst) ∨
      (p.1 ∉ r.success_nodes.map Prod.fst ∧
        p.1 ∈ r.failed_nodes.map Prod.fst) := by
  have hreq : r = run_one_round nodes setupTxns := by
    cases hpre : pre with
    | error e => rw [execute_round.eq_def, hpre] at hok; exact absurd hok (by simp)
    | ok u =>
      cases u
      have h2 : (execute_round pre setupTxns nodes post).2
          = some (run_one_round nodes setupTxns) := by
        rw [execute_round.eq_def, hpre]
        cases hpost : post (run_one_round nodes setupTxns) with
        | error e => simp [hpost]
        | ok u2 => cases u2; simp [hpost]
      rw [h2] at hr
      exact (Option.some_inj.mp hr).symm
  subst hreq
  rw [run_one_round_eq nodes setupTxns hnd]
  refine ⟨okPart_errPart_length nodes, ?_⟩
  intro p hp
  have hinj := List.inj_on_of_nodup_map hnd
  cases hp2 : p.2 with
  | ok v =>
    left
    constructor
    · exact List.mem_map.mpr ⟨(p.1, v),
        List.mem_filterMap.mpr ⟨p, hp, by simp [okPart, hp2]⟩, rfl⟩
    · intro hmem
      obtain ⟨pr, hpr, hpr1⟩ := List.mem_map.mp hmem
      obtain ⟨q, hq, hqe⟩ := List.mem_filterMap.mp hpr
      have hq2 : ∃ e, q.2 = Except.error e ∧ pr = (q.1, e) := by
        unfold errPart at hqe
        cases hq2 : q.2 with
        | ok w => rw [hq2] at hqe; exact absurd hqe (by simp)
        | error e =>
          rw [hq2] at hqe
          exact ⟨e, rfl, by simpa using hqe.symm⟩
      obtain ⟨e, hqerr, hpre⟩ := hq2
      have hq1 : q.1 = p.1 := by rw [hpre] at hpr1; simpa using hpr1
      have : q = p := hinj hq hp hq1
      rw [this, hp2] at hqerr
      exact Except.noConfusion hqerr
  | error e =>
    right
    constructor
    · intro hmem
      obtain ⟨pr, hpr, hpr1⟩ := List.mem_map.mp hmem
      obtain ⟨q, hq, hqe⟩ := List.mem_filterMap.mp hpr
      have hq2 : ∃ v, q.2 = Except.ok v ∧ pr = (q.1, v) := by
        unfold okPart at hqe
        cases hq2 : q.2 with
        | ok w =>
          rw [hq2] at hqe
          exact ⟨w, rfl, by simpa using hqe.symm⟩
        | error e2 => rw [hq2] at hqe; exact absurd hqe (by simp)
      obtain ⟨v, hqok, hprv⟩ := hq2
      have hq1 : q.1 = p.1 := by rw [hprv] at hpr1; simpa using hpr1
      have : q = p := hinj hq hp hq1
      rw [this, hp2] at hqok
      exact Except.noConfusion hqok
    · exact List.mem_map.mpr ⟨(p.1, e),
        List.mem_filterMap.mpr ⟨p, hp, by simp [errPart, hp2]⟩, rfl⟩

/-- Witness for C6: a 2-node round where node 0 decides and node 1
fails; execute_round returns `Ok` (identity post-check) and the
resulting maps hold one node each, summing to 2. -/
theorem execute_round_partition_w :
    (RoundResult.mk [] [(0, 5)] [(1, 7)] none).success_nodes.length +
      (RoundResult.mk [] [(0, 5)] [(1, 7)] none).failed_nodes.length = 2 :=
  (execute_round_partition (Except.ok ()) []
    [(0, Except.ok 5), (1, Except.error 7)] (fun _ => Except.ok ())
    (by simp) (RoundResult.mk [] [(0, 5)] [(1, 7)] none)
    (by rfl) (by rfl)).1

/-- A node held by the `TestRunner` (`Node` in `src/testing/src/lib.rs`):
its `node_id` together with the `HotShotHandle`, of which the harness
logic only ever consults the decided leaf
(`handle.get_decided_leaf()`), modelled as a `Nat`. -/
structure Node where
  node_id : Nat
  decided_leaf : Nat
deriving DecidableEq

/-- The orchestrator (`TestRunner`): the ordered node list and the
monotone id counter.  The three generators, the default config and the
round pipeline do not influence the lifecycle logic and are omitted. -/
structure TestRunner where
  nodes : List Node
  next_node_id : Nat
deriving DecidableEq

/-- `TestRunner::new`: empty node list, `next_node_id = 0`. -/
def TestRunner.new : TestRunner := { nodes := [], next_node_id := 0 }

/-- `TestRunner::add_node_with_config`: allocate `next_node_id` as the
new node's id, increment the counter, construct the handle (whose
decided leaf starts at the given genesis `leaf`) and push the node;
returns the allocated id. -/
def add_node_with_config (r : TestRunner) (leaf : Nat) : TestRunner × Nat :=
  let node_id := r.next_node_id
  ({ nodes := r.nodes ++ [{ node_id := node_id, decided_leaf := leaf }],
     next_node_id := node_id + 1 }, node_id)

/-- `TestRunner::add_nodes(count)`: call `add_node_with_config` once per
node with the default (genesis) state, collecting the allocated ids. -/
def add_nodes (r : TestRunner) (count : Nat) : TestRunner × List Nat :=
  match count with
  | 0 => (r, [])
  | c + 1 =>
    let res := add_node_with_config r 0
    let rest := add_nodes res.1 c
    (rest.1, res.2 :: rest.2)

/-- `TestRunner::ids`: the current node ids in insertion order. -/
def TestRunner.ids (r : TestRunner) : List Nat := r.nodes.map Node.node_id

/-- `TestRunner::shutdown(node_id)`: find the position of the node with
the given id, remove it from the list and shut it down; error with
`NoSuchNode` carrying the current ids when the id is absent. -/
def TestRunner.shutdown (r : TestRunner) (node_id : Nat) :
    TestRunner × Except ConsensusFailedError Unit :=
  match r.nodes.findIdx? (fun n => n.node_id == node_id) with
  | some idx => ({ r with nodes := r.nodes.eraseIdx idx }, Except.ok ())
  | none =>
    (r, Except.error (ConsensusFailedError.NoSuchNode r.ids node_id))

/-- `TestRunner::get_handle(id)`: the handle of the node with
`node_id == id`, if any. -/
def get_handle (r : TestRunner) (id : Nat) : Option Node :=
  r.nodes.find? (fun n => n.node_id == id)

/-- The lifecycle operations a test may perform on a runner. -/
inductive RunnerOp where
  /-- `add_nodes(count)` -/
  | addNodes (count : Nat)
  /-- `add_node_with_config(...)` with a given genesis leaf -/
  | addNode (leaf : Nat)
  /-- `shutdown(id)` -/
  | shutdownNode (id : Nat)

/-- Apply one lifecycle operation to the runner state. -/
def applyOp (r : TestRunner) : RunnerOp → TestRunner
  | RunnerOp.addNodes count => (add_nodes r count).1
  | RunnerOp.addNode leaf => (add_node_with_config r leaf).1
  | RunnerOp.shutdownNode id => (r.shutdown id).1

/-- Run a sequence of lifecycle operations from a fresh runner. -/
def applyOps (ops : List RunnerOp) : TestRunner :=
  ops.foldl applyOp TestRunner.new

/-- The runner lifecycle invariant of the claim: every held id is below
`next_node_id`, the ids are strictly increasing in insertion order
(hence pairwise distinct), and there are at most `next_node_id` nodes. -/
def RunnerInv (r : TestRunner) : Prop :=
  (∀ n ∈ r.nodes, n.node_id < r.next_node_id) ∧
  (r.nodes.map Node.node_id).Pairwise (· < ·) ∧
  r.nodes.length ≤ r.next_node_id

theorem add_node_with_config_inv {r : TestRunner} (h : RunnerInv r)
    (leaf : Nat) : RunnerInv (add_node_with_config r leaf).1 := by
  obtain ⟨h1, h2, h3⟩ := h
  refine ⟨?_, ?_, ?_⟩
  · intro n hn
    simp only [add_node_with_config, List.mem_append,
      List.mem_singleton] at hn ⊢
    rcases hn with hn | hn
    · exact Nat.lt_succ_of_lt (h1 n hn)
    · subst hn; exact Nat.lt_succ_self _
  · simp only [add_node_with_config, List.map_append, List.map_cons,
      List.map_nil]
    rw [List.pairwise_append]
    refine ⟨h2, by simp, ?_⟩
    intro a ha b hb
    simp only [List.mem_singleton] at hb
    obtain ⟨n, hn, hna⟩ := List.mem_map.mp ha
    subst hb
    subst hna
    exact h1 n hn
  · simp only [add_node_with_config, List.length_append,
      List.length_singleton]
    omega

theorem add_nodes_inv {r : TestRunner} (h : RunnerInv r) :
    ∀ count, RunnerInv (add_nodes r count).1 := by
  intro count
  induction count generalizing r with
  | zero => simpa [add_nodes] using h
  | succ c ih =>
    simp only [add_nodes]
    exact ih (add_node_with_config_inv h 0)

theorem eraseIdx_append_len {α : Type} (l1 : List α) (x : α) (l2 : List α) :
    (l1 ++ x :: l2).eraseIdx l1.length = l1 ++ l2 := by
  induction l1 with
  | nil => simp
  | cons y ys ih => simpa [List.eraseIdx_cons_succ] using ih

theorem shutdown_inv {r : TestRunner} (h : RunnerInv r) (id : Nat) :
    RunnerInv (r.shutdown id).1 := by
  obtain ⟨h1, h2, h3⟩ := h
  cases hfi : r.nodes.findIdx? (fun n => n.node_id == id) with
  | none => simpa [TestRunner.shutdown, hfi] using ⟨h1, h2, h3⟩
  | some idx =>
    have hsub : (r.nodes.eraseIdx idx).Sublist r.nodes :=
      List.eraseIdx_sublist r.nodes idx
    refine ⟨?_, ?_, ?_⟩
    · intro n hn
      simp only [TestRunner.shutdown, hfi] at hn ⊢
      exact h1 n (hsub.mem hn)
    · simp only [TestRunner.shutdown, hfi]
      exact List.Pairwise.sublist (hsub.map Node.node_id) h2
    · simp only [TestRunner.shutdown, hfi]
      have := hsub.length_le
      omega

theorem applyOp_inv {r : TestRunner} (h : RunnerInv r) (op : RunnerOp) :
    RunnerInv (applyOp r op) := by
  cases op with
  | addNodes count => exact add_nodes_inv h count
  | addNode leaf => exact add_node_with_config_inv h leaf
  | shutdownNode id => exact shutdown_inv h id

theorem applyOp_next_mono (r : TestRunner) (op : RunnerOp) :
    r.next_node_id ≤ (applyOp r op).next_node_id := by
  cases op with
  | addNodes count =>
    show r.next_node_id ≤ (add_nodes r count).1.next_node_id
    induction count generalizing r with
    | zero => simp [add_nodes]
    | succ c ih =>
      simp only [add_nodes]
      calc r.next_node_id ≤ r.next_node_id + 1 := Nat.le_succ _
        _ = (add_node_with_config r 0).1.next_node_id := rfl
        _ ≤ _ := ih (add_node_with_config r 0).1
  | addNode leaf => exact Nat.le_succ _
  | shutdownNode id =>
    cases hfi : r.nodes.findIdx? (fun n => n.node_id == id) with
    | none => simp [applyOp, TestRunner.shutdown, hfi]
    | some idx => simp [applyOp, TestRunner.shutdown, hfi]

/-- C7: after any sequence of `add_nodes`, `add_node_with_config` and
`shutdown` operations from a fresh runner, every node id is below
`next_node_id`, the ids are pairwise distinct and strictly increasing
in insertion order, `nodes.len() ≤ next_node_id`, and no operation ever
decreases `next_node_id` (so a shut-down node's id is never reused). -/
theorem runner_lifecycle_invariants (ops : List RunnerOp) :
    RunnerInv (applyOps ops) ∧
    ∀ (r : TestRunner) (op : RunnerOp),
      r.next_node_id ≤ (applyOp r op).next_node_id := by
  constructor
  · have hstart : RunnerInv TestRunner.new := by
      refine ⟨?_, ?_, ?_⟩ <;> simp [TestRunner.new]
    have hfold : ∀ (l : List RunnerOp) (r : TestRunner), RunnerInv r →
        RunnerInv (l.foldl applyOp r) := by
      intro l
      induction l with
      | nil => intro r hr; simpa using hr
      | cons op rest ih =>
        intro r hr
        exact ih (applyOp r op) (applyOp_inv hr op)
    exact hfold ops TestRunner.new hstart
  · exact applyOp_next_mono

theorem findIdx?_decomp {α : Type} (p : α → Bool) :
    ∀ (l : List α) (s i : Nat), List.findIdx? p l s = some i →
    s ≤ i ∧ ∃ l1 x l2, l = l1 ++ x :: l2 ∧ l1.length = i - s ∧
      p x = true ∧ ∀ y ∈ l1, p y = false := by
  intro l
  induction l with
  | nil =>
    intro s i h
    rw [List.findIdx?_nil] at h
    exact Option.noConfusion h
  | cons x xs ih =>
    intro s i h
    rw [List.findIdx?_cons] at h
    by_cases hx : p x = true
    · rw [if_pos hx] at h
      injection h with h
      subst h
      exact ⟨Nat.le_refl s, [], x, xs, by simp, by simp, hx, by simp⟩
    · rw [if_neg hx] at h
      obtain ⟨hsi, l1, y, l2, hl, hlen, hy, hall⟩ := ih (s + 1) i h
      refine ⟨by omega, x :: l1, y, l2, by simp [hl], ?_, hy, ?_⟩
      · simp only [List.length_cons, hlen]
        omega
      · intro z hz
        rcases List.mem_cons.mp hz with h2 | h2
        · subst h2; exact Bool.eq_false_iff.mpr hx
        · exact hall z h2

/-- C8: `shutdown(id)` with an id held by some node removes exactly that
node (the list decomposes as `l1 ++ [n] ++ l2` before and `l1 ++ l2`
after, preserving the order of the rest), returns `Ok`, leaves
`next_node_id` unchanged, and afterwards `get_handle(id) = None`; with
an absent id it returns `NoSuchNode` carrying the current id list and
the requested id, and leaves the runner unchanged.  The hypothesis that
ids are distinct is the runner invariant established by
`runner_lifecycle_invariants`. -/
theorem shutdown_spec (r : TestRunner) (id : Nat) (hnd : r.ids.Nodup) :
    ((∃ n ∈ r.nodes, n.node_id = id) →
      (r.shutdown id).2 = Except.ok () ∧
      (∃ l1 n l2, n.node_id = id ∧ r.nodes = l1 ++ n :: l2 ∧
        (r.shutdown id).1.nodes = l1 ++ l2) ∧
      get_handle (r.shutdown id).1 id = none ∧
      (r.shutdown id).1.next_node_id = r.next_node_id) ∧
    ((∀ n ∈ r.nodes, n.node_id ≠ id) →
      (r.shutdown id).2 =
        Except.error (ConsensusFailedError.NoSuchNode r.ids id) ∧
      (r.shutdown id).1 = r) := by
  constructor
  · intro hex
    obtain ⟨n0, hn0, hn0id⟩ := hex
    cases hfi : r.nodes.findIdx? (fun n => n.node_id == id) with
    | none =>
      exfalso
      have := List.findIdx?_eq_none_iff.mp hfi n0 hn0
      simp [hn0id] at this
    | some idx =>
      obtain ⟨hsi, l1, x, l2, hl, hlen, hx, hall⟩ :=
        findIdx?_decomp (fun n => n.node_id == id) r.nodes 0 idx hfi
      have hxid : x.node_id = id := by simpa using hx
      have hlen' : l1.length = idx := by omega
      have herase : r.nodes.eraseIdx idx = l1 ++ l2 := by
        rw [hl, ← hlen']
        exact eraseIdx_append_len l1 x l2
      refine ⟨by simp [TestRunner.shutdown, hfi], ?_, ?_, ?_⟩
      · exact ⟨l1, x, l2, hxid, hl, by simp [TestRunner.shutdown, hfi, herase]⟩
      · have hl2 : ∀ y ∈ l2, y.node_id ≠ id := by
          have hnd' : (l1.map Node.node_id ++
              x.node_id :: l2.map Node.node_id).Nodup := by
            have : r.ids = l1.map Node.node_id ++
                x.node_id :: l2.map Node.node_id := by
              simp [TestRunner.ids, hl]
            rwa [this] at hnd
          have hnotin : x.node_id ∉ l2.map Node.node_id := by
            rw [List.nodup_middle] at hnd'
            have := (List.nodup_cons.mp hnd').1
            intro hmem
            exact this (List.mem_append.mpr (Or.inr hmem))
          intro y hy hyid
          exact hnotin (List.mem_map.mpr ⟨y, hy, by rw [hyid, hxid]⟩)
        simp only [get_handle, TestRunner.shutdown, hfi, herase]
        rw [List.find?_eq_none]
        intro y hy
        rcases List.mem_append.mp hy with h2 | h2
        · simpa using hall y h2
        · simpa using hl2 y h2
      · simp [TestRunner.shutdown, hfi]
  · intro habs
    have hfi : r.nodes.findIdx? (fun n => n.node_id == id) = none := by
      rw [List.findIdx?_eq_none_iff]
      intro n hn
      simpa using habs n hn
    exact ⟨by simp [TestRunner.shutdown, hfi], by simp [TestRunner.shutdown, hfi]⟩

/-- Witness for C8 on a concrete runner holding ids `[0, 1]`:
`shutdown 1` succeeds and afterwards `get_handle 1` is `None`, while
`shutdown 5` fails with `NoSuchNode [0, 1] 5` and leaves the runner
unchanged. -/
theorem shutdown_spec_w :
    ((TestRunner.mk [Node.mk 0 0, Node.mk 1 0] 2).shutdown 1).2 =
        Except.ok () ∧
      get_handle ((TestRunner.mk [Node.mk 0 0, Node.mk 1 0] 2).shutdown 1).1
        1 = none ∧
    ((TestRunner.mk [Node.mk 0 0, Node.mk 1 0] 2).shutdown 5).2 =
      Except.error (ConsensusFailedError.NoSuchNode [0, 1] 5) := by
  have h1 := shutdown_spec (TestRunner.mk [Node.mk 0 0, Node.mk 1 0] 2) 1
    (by decide)
  have h5 := shutdown_spec (TestRunner.mk [Node.mk 0 0, Node.mk 1 0] 2) 5
    (by decide)
  have hp1 := h1.1 ⟨Node.mk 1 0, by simp, rfl⟩
  have hp5 := h5.2 (by decide)
  exact ⟨hp1.1, hp1.2.2.1, hp5.1⟩

/-- `TestRunner::add_random_transaction(node_id, rng)`: panics (`none`)
when the runner holds no nodes; otherwise reads `nodes[0]`'s decided
leaf, manufactures a transaction from it
(`I::leaf_create_random_transaction`, modelled by the external `mkTxn`),
and picks the submitting node as `self.nodes.get(node_id).unwrap()` —
an *index* into the node list, panicking (`none`) when out of range —
when the argument is given, or `self.nodes.iter().choose(rng).unwrap()`
(a uniformly random element, modelled by the rng-supplied index
`rngChoice % nodes.length`) otherwise.  Returns the submitted
transaction together with the node it was submitted through. -/
def add_random_transaction (nodes : List Node) (mkTxn : Nat → Nat)
    (node_id : Option Nat) (rngChoice : Nat) : Option (Nat × Node) :=
  match nodes with
  | [] => none
  | first :: _ =>
    let leaf := first.decided_leaf
    let txn := mkTxn leaf
    let target : Option Node :=
      match node_id with
      | some idx => nodes.get? idx
      | none => nodes.get? (rngChoice % nodes.length)
    match target with
    | some node => some (txn, node)
    | none => none

/-- C9 counterexample: a runner that has shut node 0 down holds nodes
with ids `[1, 2]`.  `add_random_transaction` with the explicit argument
`1` submits through the node at *index* 1 — the node whose `node_id` is
`2` — not through the node whose id is `1` as the claim reads. -/
theorem add_random_transaction_selects_index_not_id :
    (add_random_transaction [Node.mk 1 10, Node.mk 2 20] (fun l => l)
        (some 1) 0).map (fun p => p.2.node_id) = some 2 ∧
    (add_random_transaction [Node.mk 1 10, Node.mk 2 20] (fun l => l)
        (some 1) 0).map (fun p => p.2.node_id) ≠ some 1 := by
  have h2 : (add_random_transaction [Node.mk 1 10, Node.mk 2 20]
      (fun l => l) (some 1) 0).map (fun p => p.2.node_id) = some 2 := rfl
  refine ⟨h2, ?_⟩
  rw [h2]
  simp

/-- C9 amended: `add_random_transaction` panics on an empty runner;
otherwise the transaction is built from node 0's decided leaf and is
submitted through the node at *position* `node_id` in the node list
when the explicit argument is given (panicking when out of range), or
through a random element of the list otherwise; the submitted
transaction is returned. -/
theorem add_random_transaction_spec (n0 : Node) (rest : List Node)
    (mkTxn : Nat → Nat) (r i : Nat) :
    add_random_transaction [] mkTxn (some i) r = none ∧
    add_random_transaction [] mkTxn none r = none ∧
    add_random_transaction (n0 :: rest) mkTxn (some i) r
      = ((n0 :: rest).get? i).map (fun n => (mkTxn n0.decided_leaf, n)) ∧
    (∃ n, (n0 :: rest).get? (r % (n0 :: rest).length) = some n ∧
      n ∈ n0 :: rest ∧
      add_random_transaction (n0 :: rest) mkTxn none r
        = some (mkTxn n0.decided_leaf, n)) := by
  refine ⟨rfl, rfl, ?_, ?_⟩
  · simp only [add_random_transaction]
    cases hg : (n0 :: rest).get? i with
    | none => simp [hg]
    | some n => simp [hg]
  · have hlt : r % (n0 :: rest).length < (n0 :: rest).length :=
      Nat.mod_lt _ (by simp)
    cases hg : (n0 :: rest).get? (r % (n0 :: rest).length) with
    | none =>
      exfalso
      rw [List.get?_eq_none] at hg
      omega
    | some n =>
      refine ⟨n, rfl, List.get?_mem hg, ?_⟩
      simp only [add_random_transaction, hg]

/-- How `TestRunner::validate_node_states` terminates. -/
inductive ValidateOutcome where
  /-- all nodes are on the same decided leaf -/
  | allMatch
  /-- exactly one mismatch against the first node: accepted with a
  warning -/
  | oneMismatch
  /-- all other nodes mismatch the first one and also pairwise differ
  among themselves in adjacent order: the first node is treated as the
  outlier and the state is accepted with a warning -/
  | firstOutlier
  /-- the run ends in `panic!("Node states do not match")` -/
  | panicked
deriving DecidableEq

/-- `TestRunner::validate_node_states`: gathers every node's decided
leaf (in node order), splits off the first (the `unwrap` panics on an
empty runner, modelled as `none`), counts the remaining leaves that
differ from the first, and then: 0 mismatches → accept; 1 mismatch →
accept with warning; `n − 1` mismatches → accept with warning when
every adjacent pair of the remaining leaves differs
(`if left == right { all_other_nodes_match = false }` over
`remaining.windows(2)`), else panic; any other count → panic. -/
def validate_node_states (leaves : List Nat) : Option ValidateOutcome :=
  match leaves with
  | [] => none
  | first_leaf :: remaining =>
    let mismatch_count :=
      (remaining.filter (fun leaf => first_leaf != leaf)).length
    if mismatch_count = 0 then some ValidateOutcome.allMatch
    else if mismatch_count = 1 then some ValidateOutcome.oneMismatch
    else if mismatch_count = leaves.length - 1 then
      let all_other_nodes_match :=
        (remaining.zip remaining.tail).all (fun p => p.1 != p.2)
      if all_other_nodes_match then some ValidateOutcome.firstOutlier
      else some ValidateOutcome.panicked
    else some ValidateOutcome.panicked

/-- C4 counterexample: three nodes whose decided leaves are `0`, `1`,
`2` — both node 1 and node 2 differ from node 0 — do *not* make
`validate_node_states` panic: the two remaining leaves also differ from
each other, so the first node is treated as the outlier and the run is
accepted with a warning. -/
theorem validate_node_states_three_distinct_accepts :
    validate_node_states [0, 1, 2] = some ValidateOutcome.firstOutlier ∧
    validate_node_states [0, 1, 2] ≠ some ValidateOutcome.panicked := by
  constructor
  · rfl
  · intro h
    exact ValidateOutcome.noConfusion (Option.some_inj.mp h)

/-- C4 amended: with exactly 3 nodes whose second and third decided
leaves both differ from the first, `validate_node_states` panics iff
the second and third leaves are *equal to each other*; when they also
differ from each other the first node is treated as the outlier and the
states are accepted with a warning. -/
theorem validate_node_states_three (l0 l1 l2 : Nat)
    (h1 : l1 ≠ l0) (h2 : l2 ≠ l0) :
    (validate_node_states [l0, l1, l2] = some ValidateOutcome.panicked ↔
      l1 = l2) ∧
    (l1 ≠ l2 →
      validate_node_states [l0, l1, l2] =
        some ValidateOutcome.firstOutlier) := by
  have hb1 : (l0 != l1) = true := bne_iff_ne.mpr (Ne.symm h1)
  have hb2 : (l0 != l2) = true := bne_iff_ne.mpr (Ne.symm h2)
  have hm : ([l1, l2].filter (fun leaf => l0 != leaf)).length = 2 := by
    simp [List.filter_cons, hb1, hb2]
  by_cases h12 : l1 = l2
  · subst h12
    constructor
    · simp only [validate_node_states, hm]
      norm_num
    · intro h; exact absurd rfl h
  · constructor
    · simp only [validate_node_states, hm]
      norm_num
      simp [List.zip, bne_iff_ne, h12]
    · intro _
      simp only [validate_node_states, hm]
      norm_num
      simp [List.zip, bne_iff_ne, h12]

/-- Witness for C4 amended at `(0, 1, 1)`: the two agreeing dissenters
make `validate_node_states` panic. -/
theorem validate_node_states_three_w :
    validate_node_states [0, 1, 1] = some ValidateOutcome.panicked :=
  ((validate_node_states_three 0 1 1 (by decide) (by decide)).1).mpr rfl

/-- Network events from the swarm
(`src/libp2p-networking/src/network_node_handle.rs`); the connectivity
waiter only distinguishes the two peer-set updates, everything else is
ignored.  Peer ids are modelled as `Nat` and peer sets as `Finset Nat`
(the source uses `HashSet<PeerId>`). -/
inductive NetworkEvent where
  /-- `UpdateConnectedPeers(pids)` -/
  | updateConnectedPeers (pids : Finset Nat)
  /-- `UpdateKnownPeers(pids)` -/
  | updateKnownPeers (pids : Finset Nat)
  /-- any other event, ignored by the waiter -/
  | other
deriving DecidableEq

/-- `ConnectionData`: the connection metadata of a node handle, updated
wholesale on each peer-set event. -/
structure ConnectionData where
  connected_peers : Finset Nat
  known_peers : Finset Nat
deriving DecidableEq

/-- The loop of `NetworkNodeHandle::wait_to_connect`: drain the event
channel, overwriting `connection_state` on each peer-set event and
latching `connected_ok` / `known_ok` when the reported set has at least
`3 * num_of_nodes / 4` elements (the source's integer division -- the
flags are never reset), until both flags hold.  Returns the final
connection state together with how the waiter ended: `true` when both
flags latched (the waiter returned `Ok(())`), `false` when the channel
closed first (`chan.recv_async()` returned a `RecvError`, which the
waiter surfaces as an error); the node's `connection_state` keeps the
last written sets either way. -/
def waitToConnectGo (num_of_nodes : Nat) (evs : List NetworkEvent)
    (st : ConnectionData) (connected_ok known_ok : Bool) :
    ConnectionData × Bool :=
  if known_ok && connected_ok then (st, true)
  else
    match evs with
    | [] => (st, false)
    | ev :: rest =>
      match ev with
      | NetworkEvent.updateConnectedPeers pids =>
        waitToConnectGo num_of_nodes rest
          { st with connected_peers := pids }
          (if 3 * num_of_nodes / 4 ≤ pids.card then true else connected_ok)
          known_ok
      | NetworkEvent.updateKnownPeers pids =>
        waitToConnectGo num_of_nodes rest
          { st with known_peers := pids }
          connected_ok
          (if 3 * num_of_nodes / 4 ≤ pids.card then true else known_ok)
      | NetworkEvent.other =>
        waitToConnectGo num_of_nodes rest st connected_ok known_ok

/-- `wait_to_connect(node, num_of_nodes, chan, node_idx)`: run the
waiter from a default connection state with both flags down, over the
node's event stream. -/
def wait_to_connect (num_of_nodes : Nat) (evs : List NetworkEvent) :
    ConnectionData × Bool :=
  waitToConnectGo num_of_nodes evs ⟨∅, ∅⟩ false false

/-- How `spin_up_swarms` terminates. -/
inductive SwarmOutcome where
  /-- `join_all` finished within the timeout and `Ok(handles)` is
  returned: each handle is represented by its waiter's final connection
  state and whether that waiter completed -- `spin_up_swarms` itself
  discards the per-waiter results -/
  | ok (handles : List (ConnectionData × Bool))
  /-- the caller-supplied deadline elapsed before `join_all` finished:
  a `TimeoutError` is returned -/
  | failed
  /-- the unsigned subtraction `num_of_nodes - num_bootstrap`
  underflowed -/
  | panicked
deriving DecidableEq

/-- `NetworkNodeHandle::spin_up_swarms(num_of_nodes, timeout_len,
num_bootstrap)`: create `num_bootstrap` bootstrap handles and then
`num_of_nodes - num_bootstrap` regular handles (this unsigned
subtraction panics in Rust when `num_bootstrap > num_of_nodes`),
spawning for each node `i` a `wait_to_connect` waiter over that node's
event stream (`events i`), then await `join_all` of the waiters under
the caller's timeout.  Whether the deadline elapses before every waiter
terminates is decided by the runtime and is passed in as `timedOut`;
when it does not, the source's
`timeout(..).await.context(TimeoutSnafu)?` discards the collected
per-waiter `Result`s, so `Ok(handles)` is returned even when some
waiter ended in a `RecvError` without ever latching its thresholds.
Handle construction, bootstrap-address seeding and the regular node
config (min 10 / max 15 peers) do not affect this logic and are
abstracted away (construction is assumed to succeed). -/
def spin_up_swarms (num_of_nodes num_bootstrap : Nat)
    (events : Nat → List NetworkEvent) (timedOut : Bool) : SwarmOutcome :=
  if num_bootstrap ≤ num_of_nodes then
    if timedOut then SwarmOutcome.failed
    else
      SwarmOutcome.ok
        ((List.range (num_bootstrap + (num_of_nodes - num_bootstrap))).map
          (fun i => wait_to_connect num_of_nodes (events i)))
  else SwarmOutcome.panicked

theorem waitToConnectGo_events (num_of_nodes : Nat) :
    ∀ (evs : List NetworkEvent) (st : ConnectionData)
      (connected_ok known_ok : Bool),
    (waitToConnectGo num_of_nodes evs st connected_ok known_ok).2 = true →
    (connected_ok = true ∨
      ∃ pids, NetworkEvent.updateConnectedPeers pids ∈ evs ∧
        3 * num_of_nodes / 4 ≤ pids.card) ∧
    (known_ok = true ∨
      ∃ pids, NetworkEvent.updateKnownPeers pids ∈ evs ∧
        3 * num_of_nodes / 4 ≤ pids.card) := by
  intro evs
  induction evs with
  | nil =>
    intro st c k h
    rw [waitToConnectGo.eq_def] at h
    by_cases hkc : (k && c) = true
    · obtain ⟨hk, hc⟩ := (Bool.and_eq_true k c).mp hkc
      exact ⟨Or.inl hc, Or.inl hk⟩
    · rw [if_neg hkc] at h
      exact absurd h (by simp)
  | cons ev rest ih =>
    intro st c k h
    rw [waitToConnectGo.eq_def] at h
    by_cases hkc : (k && c) = true
    · obtain ⟨hk, hc⟩ := (Bool.and_eq_true k c).mp hkc
      exact ⟨Or.inl hc, Or.inl hk⟩
    · rw [if_neg hkc] at h
      cases ev with
      | updateConnectedPeers pids =>
        have hih := ih { st with connected_peers := pids }
          (if 3 * num_of_nodes / 4 ≤ pids.card then true else c) k h
        constructor
        · by_cases hthr : 3 * num_of_nodes / 4 ≤ pids.card
          · exact Or.inr ⟨pids, List.mem_cons_self _ _, hthr⟩
          · rcases (if_neg hthr ▸ hih.1) with hc1 | ⟨q, hq, hqc⟩
            · exact Or.inl hc1
            · exact Or.inr ⟨q, List.mem_cons_of_mem _ hq, hqc⟩
        · rcases hih.2 with hk1 | ⟨q, hq, hqc⟩
          · exact Or.inl hk1
          · exact Or.inr ⟨q, List.mem_cons_of_mem _ hq, hqc⟩
      | updateKnownPeers pids =>
        have hih := ih { st with known_peers := pids } c
          (if 3 * num_of_nodes / 4 ≤ pids.card then true else k) h
        constructor
        · rcases hih.1 with hc1 | ⟨q, hq, hqc⟩
          · exact Or.inl hc1
          · exact Or.inr ⟨q, List.mem_cons_of_mem _ hq, hqc⟩
        · by_cases hthr : 3 * num_of_nodes / 4 ≤ pids.card
          · exact Or.inr ⟨pids, List.mem_cons_self _ _, hthr⟩
          · rcases (if_neg hthr ▸ hih.2) with hk1 | ⟨q, hq, hqc⟩
            · exact Or.inl hk1
            · exact Or.inr ⟨q, List.mem_cons_of_mem _ hq, hqc⟩
      | other =>
        have hih := ih st c k h
        constructor
        · rcases hih.1 with hc1 | ⟨q, hq, hqc⟩
          · exact Or.inl hc1
          · exact Or.inr ⟨q, List.mem_cons_of_mem _ hq, hqc⟩
        · rcases hih.2 with hk1 | ⟨q, hq, hqc⟩
          · exact Or.inl hk1
          · exact Or.inr ⟨q, List.mem_cons_of_mem _ hq, hqc⟩

theorem wait_to_connect_events (num_of_nodes : Nat)
    (evs : List NetworkEvent)
    (h : (wait_to_connect num_of_nodes evs).2 = true) :
    (∃ pids, NetworkEvent.updateConnectedPeers pids ∈ evs ∧
      3 * num_of_nodes / 4 ≤ pids.card) ∧
    (∃ pids, NetworkEvent.updateKnownPeers pids ∈ evs ∧
      3 * num_of_nodes / 4 ≤ pids.card) := by
  have hh := waitToConnectGo_events num_of_nodes evs ⟨∅, ∅⟩ false false h
  exact ⟨hh.1.resolve_left (by simp), hh.2.resolve_left (by simp)⟩

/-- A 5-node bootstrap scenario: a connected-peers report of size 3
latches `connected_ok` (3 ≥ 3·5/4 under the source's integer
division), a later report shrinks the stored connected set to size 1,
and a known-peers report of size 3 latches `known_ok`. -/
def cexEvents : List NetworkEvent :=
  [NetworkEvent.updateConnectedPeers {0, 1, 2},
   NetworkEvent.updateConnectedPeers {0},
   NetworkEvent.updateKnownPeers {0, 1, 2}]

/-- The connection state a waiter of `cexEvents` ends in. -/
def cexState : ConnectionData :=
  { connected_peers := {0}, known_peers := {0, 1, 2} }

/-- Event streams in which node 0's channel closes without delivering
any event, while every other node sees `cexEvents`. -/
def cexEventsFun : Nat → List NetworkEvent :=
  fun i => if i = 0 then [] else cexEvents

/-- C3 counterexample: `spin_up_swarms(5, _, 5)` over `cexEventsFun`
returns `Ok` although the first handle's waiter never completed -- its
channel closed before any peer update, so no `UpdateConnectedPeers` or
`UpdateKnownPeers` event was ever reported for it (the per-waiter
results of `join_all` are discarded) -- and the handles whose waiters
did complete end with `|connected_peers| = 1` and `|known_peers| = 3`,
below the claimed `⌈3·5/4⌉ = 4` (the source's threshold is the floor
`3·5/4 = 3`). -/
theorem spin_up_swarms_ok_without_thresholds :
    spin_up_swarms 5 5 cexEventsFun false
      = SwarmOutcome.ok
        ((ConnectionData.mk ∅ ∅, false) ::
          List.replicate 4 (cexState, true)) ∧
    cexEventsFun 0 = [] ∧
    cexState.connected_peers.card = 1 ∧
    cexState.known_peers.card = 3 := by
  refine ⟨?_, ?_, ?_, ?_⟩ <;> decide

/-- C3 amended: for `num_bootstrap ≤ num_of_nodes`, a successful
`spin_up_swarms` returns exactly `num_of_nodes` handles; because the
per-waiter results of `join_all` are discarded, success does not imply
the connectivity waiters completed -- but every handle whose waiter
did complete did so only after some `UpdateConnectedPeers` event and
some `UpdateKnownPeers` event each reported a peer set of size at
least `⌊3·num_of_nodes/4⌋` (the source's integer division, not the
ceiling); each handle's final `connection_state` is whatever its
waiter last wrote, possibly below the threshold. -/
theorem spin_up_swarms_spec (num_of_nodes num_bootstrap : Nat)
    (events : Nat → List NetworkEvent) (timedOut : Bool)
    (handles : List (ConnectionData × Bool))
    (hB : num_bootstrap ≤ num_of_nodes)
    (h : spin_up_swarms num_of_nodes num_bootstrap events timedOut
      = SwarmOutcome.ok handles) :
    handles.length = num_of_nodes ∧
    ∀ i < num_of_nodes,
      handles.get? i = some (wait_to_connect num_of_nodes (events i)) ∧
      ((wait_to_connect num_of_nodes (events i)).2 = true →
        (∃ pids, NetworkEvent.updateConnectedPeers pids ∈ events i ∧
          3 * num_of_nodes / 4 ≤ pids.card) ∧
        (∃ pids, NetworkEvent.updateKnownPeers pids ∈ events i ∧
          3 * num_of_nodes / 4 ≤ pids.card)) := by
  have htot : num_bootstrap + (num_of_nodes - num_bootstrap)
      = num_of_nodes := by omega
  unfold spin_up_swarms at h
  rw [if_pos hB] at h
  cases timedOut with
  | true => simp at h
  | false =>
    rw [if_neg (by simp)] at h
    have hmap : (List.range
        (num_bootstrap + (num_of_nodes - num_bootstrap))).map
          (fun i => wait_to_connect num_of_nodes (events i)) = handles := by
      simpa using h
    constructor
    · rw [← hmap, List.length_map, List.length_range, htot]
    · intro i hi
      have hget : handles.get? i
          = some (wait_to_connect num_of_nodes (events i)) := by
        rw [← hmap, List.get?_map, List.get?_range (by omega : i <
          num_bootstrap + (num_of_nodes - num_bootstrap))]
        rfl
      exact ⟨hget, fun hw => wait_to_connect_events num_of_nodes
        (events i) hw⟩

/-- Witness for C3 amended on the concrete 5-node scenario: the
successful bootstrap yields 5 handles, and node 1's completed waiter
implies its stream reported a connected-peers set of size
≥ 3·5/4 = 3. -/
theorem spin_up_swarms_spec_w :
    ((ConnectionData.mk ∅ ∅, false) ::
      List.replicate 4 (cexState, true)).length = 5 ∧
    (∃ pids, NetworkEvent.updateConnectedPeers pids ∈ cexEventsFun 1 ∧
      3 * 5 / 4 ≤ pids.card) := by
  have hh := spin_up_swarms_spec 5 5 cexEventsFun false
    ((ConnectionData.mk ∅ ∅, false) :: List.replicate 4 (cexState, true))
    (by decide) (by decide)
  exact ⟨hh.1, ((hh.2 1 (by decide)).2 (by decide)).1⟩

/-- C10: `spin_up_swarms` requires `num_bootstrap ≤ num_of_nodes`: for
every call with `num_bootstrap > num_of_nodes`, the regular-phase
count `num_of_nodes - num_bootstrap` underflows the unsigned
subtraction and the function panics instead of returning an error,
whatever the event streams and the timeout behaviour. -/
theorem spin_up_swarms_underflow (num_of_nodes num_bootstrap : Nat)
    (events : Nat → List NetworkEvent) (timedOut : Bool)
    (h : num_of_nodes < num_bootstrap) :
    spin_up_swarms num_of_nodes num_bootstrap events timedOut
      = SwarmOutcome.panicked := by
  unfold spin_up_swarms
  rw [if_neg (by omega)]

/-- Witness for C10 at `num_of_nodes = 0`, `num_bootstrap = 1`. -/
theorem spin_up_swarms_underflow_w :
    spin_up_swarms 0 1 (fun _ => []) false = SwarmOutcome.panicked :=
  spin_up_swarms_underflow 0 1 (fun _ => []) false (by decide)
